import Mathlib

/-!
Shallow embedding of the SiriusX acquisition layer (`siriusx.py`) and proofs
about its channel-configuration and unit-conversion pipeline.

Python values that flow through channel-settings records are modelled by
`PValue` (strings and exact rationals); Python floats are modelled by exact
rational arithmetic; Python dictionaries by association lists with
insert-or-overwrite semantics; exceptions by `Except String`.
-/

namespace SiriusX

/-- Model of a Python scalar value appearing in a channel-settings record:
either a string or a number (floats modelled exactly by rationals). -/
inductive PValue where
  | str (s : String)
  | num (q : ℚ)
deriving DecidableEq, Repr

/-- Rendering of a `PValue` for diagnostic messages (models Python `str`). -/
def PValue.render : PValue → String
  | .str s => s
  | .num q => toString q

/-- Rendering of a list of values for diagnostic messages. -/
def renderValues (l : List PValue) : String :=
  String.intercalate ", " (l.map PValue.render)

/-- A channel-settings record: a Python dict keyed by property-name strings. -/
abbrev Settings := List (String × PValue)

/-- Model of Python `str.split(sep)` for a one-character separator:
`pySplitChar sep l` cuts `l` at every occurrence of `sep`; the empty list
splits to one empty field, exactly as in Python. -/
def pySplitChar (sep : Char) : List Char → List (List Char)
  | [] => [[]]
  | c :: cs =>
      let rest := pySplitChar sep cs
      if c = sep then [] :: rest
      else (c :: rest.headD []) :: rest.tail

/-- Model of Python `str.strip('()')`: remove any leading and trailing
characters drawn from the two-character set containing the parentheses. -/
def pyStripParens (s : String) : String :=
  ⟨((s.toList.dropWhile fun c => c = '(' || c = ')').reverse.dropWhile
      fun c => c = '(' || c = ')').reverse⟩

/-- Gravitational constant used by the converter (`g = 9.81`). -/
def gConst : ℚ := 981 / 100

/-- The sensitivity-unit output token computed by the code:
`sens_unit.split('/')[-1].strip('()')` — the portion after the LAST slash,
stripped of parenthesis characters. -/
def sensUnitOutputOf (sensUnit : String) : String :=
  pyStripParens ⟨(pySplitChar '/' sensUnit.toList).getLastD []⟩

/-- Diagnostic emitted by `_apply_sensitivity` in the unhandled-unit branch. -/
def unhandledUnitsMsg (unitOutput sensUnit : String) : String :=
  "Units were not handled: unit_output set to " ++ unitOutput ++
    " and sensitivity unit is " ++ sensUnit ++ "."

/-- Embedding of `SiriusX._apply_sensitivity` (the Converter) on the
calibration metadata of one channel: divide by the sensitivity, then branch on
the output unit and the extracted sensitivity output-unit token.  Returns the
calibrated series together with the list of printed diagnostics. -/
def applySensitivity (sens : ℚ) (unitOutput sensUnit : String)
    (signal : List ℚ) : List ℚ × List String :=
  let sensUnitOutput := sensUnitOutputOf sensUnit
  let processed := signal.map (· / sens)
  if unitOutput = "g" ∨ unitOutput = "m/s^2" then
    if unitOutput = sensUnitOutput then (processed, [])
    else if unitOutput = "g" ∧ sensUnitOutput = "m/s^2" then
      (processed.map (· / gConst), [])
    else if unitOutput = "m/s^2" ∧ sensUnitOutput = "g" then
      (processed.map (· * gConst), [])
    else (processed, [unhandledUnitsMsg unitOutput sensUnit])
  else if unitOutput = "V" then (processed, [])
  else (processed, [])

/-- The unit combinations handled by a dedicated converter branch: output unit
is an acceleration unit whose extracted sensitivity output token matches or is
the opposite acceleration unit, or the output unit is the voltage unit. -/
def recognizedCombo (unitOutput sensUnit : String) : Prop :=
  let suo := sensUnitOutputOf sensUnit
  ((unitOutput = "g" ∨ unitOutput = "m/s^2") ∧
    (unitOutput = suo ∨ (unitOutput = "g" ∧ suo = "m/s^2") ∨
      (unitOutput = "m/s^2" ∧ suo = "g"))) ∨ unitOutput = "V"

instance (unitOutput sensUnit : String) :
    Decidable (recognizedCombo unitOutput sensUnit) := by
  unfold recognizedCombo
  exact inferInstance

/-- C1: the claim states that `convert(raw, s, "mV/(m/s^2)", "g")` equals
`(raw/s) / 9.81` elementwise and that the extraction of the output-side unit
token maps `"mV/(m/s^2)"` to `"m/s^2"`.  The code instead splits on EVERY
slash and keeps the last field, so the token is `"s^2"`; consequently, on the
failing input (sensitivity 1, raw series `[9.81]`), the converter takes the
unhandled-units branch and returns `[9.81]` with a diagnostic, while the claim
demands `[9.81/9.81] = [1]`.  The second bridging direction
(`"mV/g"` to `"m/s^2"`) does behave as claimed. -/
theorem claimC1_code_divergence :
    sensUnitOutputOf "mV/(m/s^2)" = "s^2" ∧
    applySensitivity 1 "g" "mV/(m/s^2)" [gConst] =
      ([gConst], [unhandledUnitsMsg "g" "mV/(m/s^2)"]) ∧
    gConst / 1 / gConst = 1 ∧ gConst ≠ 1 ∧
    applySensitivity 1 "m/s^2" "mV/g" [1] = ([gConst], []) := by
  have h1 : sensUnitOutputOf "mV/(m/s^2)" = "s^2" := by decide
  have h2 : sensUnitOutputOf "mV/g" = "g" := by decide
  refine ⟨h1, ?_, by norm_num [gConst], by norm_num [gConst], ?_⟩
  · simp [applySensitivity, h1]
  · simp [applySensitivity, h2]

/-- C6: the converter is total (it is a function in this embedding, defined on
every raw series, sensitivity and unit-string pair), and whenever the unit
combination is not one of the recognized cases it returns the scale-only
result `raw / sensitivity`, with the unhandled-units diagnostic exactly in the
acceleration case and no diagnostic otherwise. -/
theorem claimC6_unrecognized_scale_only (sens : ℚ) (hs : sens ≠ 0)
    (unitOutput sensUnit : String) (signal : List ℚ)
    (h : ¬ recognizedCombo unitOutput sensUnit) :
    (applySensitivity sens unitOutput sensUnit signal).1 =
      signal.map (· / sens) ∧
    ((unitOutput = "g" ∨ unitOutput = "m/s^2") →
      (applySensitivity sens unitOutput sensUnit signal).2 =
        [unhandledUnitsMsg unitOutput sensUnit]) ∧
    (¬(unitOutput = "g" ∨ unitOutput = "m/s^2") →
      (applySensitivity sens unitOutput sensUnit signal).2 = []) := by
  simp only [recognizedCombo] at h
  push_neg at h
  obtain ⟨h1, hV⟩ := h
  by_cases hacc : unitOutput = "g" ∨ unitOutput = "m/s^2"
  · obtain ⟨hd1, hd2, hd3⟩ : ¬(unitOutput = sensUnitOutputOf sensUnit) ∧
        ¬(unitOutput = "g" ∧ sensUnitOutputOf sensUnit = "m/s^2") ∧
        ¬(unitOutput = "m/s^2" ∧ sensUnitOutputOf sensUnit = "g") := by
      have := h1 hacc
      tauto
    simp only [applySensitivity, if_pos hacc, if_neg hd1, if_neg hd2,
      if_neg hd3]
    tauto
  · simp only [applySensitivity, if_neg hacc, if_neg hV]
    tauto

/-- Witness for C6 at a concrete unrecognized combination. -/
theorem claimC6_witness :
    ¬ recognizedCombo "g" "mV/V" ∧ (2 : ℚ) ≠ 0 ∧
      (applySensitivity 2 "g" "mV/V" [4]).1 = [2] ∧
      (applySensitivity 2 "g" "mV/V" [4]).2 = [unhandledUnitsMsg "g" "mV/V"] := by
  have h : ¬ recognizedCombo "g" "mV/V" := by decide
  have hs : (2 : ℚ) ≠ 0 := by norm_num
  obtain ⟨ha, hb, -⟩ :=
    claimC6_unrecognized_scale_only 2 hs "g" "mV/V" [4] h
  refine ⟨h, hs, ?_, hb (Or.inl rfl)⟩
  rw [ha]
  norm_num

/-! ### Raw-batch transpose (`read_raw`) -/

/-- Rectangular-matrix transpose, modelling `numpy.ndarray.T` as used on the
reader's native batch: row `t` of the result collects the `t`-th entry of
every input row. -/
def npT {α : Type _} : List (List α) → List (List α)
  | [] => []
  | [r] => r.map fun x => [x]
  | r :: rs => List.zipWith List.cons r (npT rs)

/-- Embedding of `SiriusX.read_raw` applied to the batch the multi-reader
returned: the reader-native (channel, time) batch is transposed to
(time, channel). -/
def read_raw (native : List (List ℚ)) : List (List ℚ) := npT native

lemma npT_length {α : Type _} (T : ℕ) :
    ∀ m : List (List α), m ≠ [] → (∀ r ∈ m, r.length = T) →
      (npT m).length = T := by
  intro m
  induction m with
  | nil => intro h; exact absurd rfl h
  | cons r rs ih =>
    intro _ hr
    cases rs with
    | nil => simpa [npT] using hr r (by simp)
    | cons r' rs' =>
      have hlen := ih (by simp) (fun x hx => hr x (List.mem_cons_of_mem _ hx))
      simp only [npT, List.length_zipWith, hlen, hr r (by simp)]
      omega

lemma npT_getElem? {α : Type _} (d : α) (T : ℕ) :
    ∀ m : List (List α), m ≠ [] → (∀ r ∈ m, r.length = T) →
      ∀ t, t < T → (npT m)[t]? = some (m.map fun row => row.getD t d) := by
  intro m
  induction m with
  | nil => intro h; exact absurd rfl h
  | cons r rs ih =>
    intro _ hr t ht
    have hrT : r.length = T := hr r (by simp)
    cases rs with
    | nil =>
      simp only [npT, List.getElem?_map, List.map]
      rw [List.getElem?_eq_getElem (by omega)]
      simp [List.getD_eq_getElem?_getD, List.getElem?_eq_getElem (hrT ▸ ht)]
    | cons r' rs' =>
      have hih := ih (by simp) (fun x hx => hr x (List.mem_cons_of_mem _ hx))
        t ht
      simp only [npT, List.getElem?_zipWith, hih,
        List.getElem?_eq_getElem (hrT ▸ ht)]
      simp [List.getD_eq_getElem?_getD, List.getElem?_eq_getElem (hrT ▸ ht)]

/-- C7: `read_raw` turns a reader-native batch of shape (channels = C,
time = T) into a batch of shape (T, C) with `result[t][c] = native[c][t]` for
all valid `t < T`, `c < C`. -/
theorem claimC7_raw_batch_transpose (native : List (List ℚ)) (C T : ℕ)
    (hC : native.length = C) (hpos : 0 < C)
    (hrect : ∀ r ∈ native, r.length = T) :
    (read_raw native).length = T ∧
    (∀ row ∈ read_raw native, row.length = C) ∧
    (∀ t c, t < T → c < C →
      ((read_raw native).getD t []).getD c 0 =
        (native.getD c []).getD t 0) := by
  have hne : native ≠ [] := by
    intro h
    rw [h] at hC
    simp at hC
    omega
  have hrw : read_raw native = npT native := rfl
  have hlen := npT_length T native hne hrect
  refine ⟨hrw ▸ hlen, ?_, ?_⟩
  · intro row hrow
    rw [hrw] at hrow
    obtain ⟨t, ht, hrt⟩ := List.getElem_of_mem hrow
    have ht' : t < T := by rw [hlen] at ht; exact ht
    have := npT_getElem? (0 : ℚ) T native hne hrect t ht'
    rw [List.getElem?_eq_getElem ht, hrt] at this
    have hrow_eq : row = native.map fun r => r.getD t 0 :=
      Option.some.inj this
    rw [hrow_eq, List.length_map, hC]
  · intro t c ht hc
    have h := npT_getElem? (0 : ℚ) T native hne hrect t ht
    rw [hrw, show (npT native).getD t [] = ((npT native)[t]?).getD [] from
      List.getD_eq_getElem?_getD _ _ _, h]
    simp only [Option.getD_some]
    rw [List.getD_eq_getElem?_getD, List.getElem?_map,
      List.getElem?_eq_getElem (hC ▸ hc)]
    simp [List.getD_eq_getElem?_getD,
      List.getElem?_eq_getElem (show c < native.length by omega)]

/-- Witness for C7 on a concrete 2-channel, 3-sample native batch. -/
theorem claimC7_witness :
    (read_raw [[1, 2, 3], [4, 5, 6]]).length = 3 ∧
    (∀ row ∈ read_raw [[1, 2, 3], [4, 5, 6]], row.length = 2) ∧
    (∀ t c, t < 3 → c < 2 →
      ((read_raw [[1, 2, 3], [4, 5, 6]]).getD t []).getD c 0 =
        (([[1, 2, 3], [4, 5, 6]] : List (List ℚ)).getD c []).getD t 0) :=
  claimC7_raw_batch_transpose [[1, 2, 3], [4, 5, 6]] 2 3 rfl (by norm_num)
    (by intro r hr; fin_cases hr <;> rfl)

/-! ### Channel configurator -/

/-- A visible amplifier property: name, current value, and the optional
enumerated legal-value list (`selection_values`, `None` when the property is
not an enumeration). -/
structure AmpProp where
  name : String
  value : PValue
  selectionValues : Option (List PValue)
deriving DecidableEq, Repr

/-- A device channel: display name and its function blocks, each block being
the list of its visible properties (block 0 is the amplifier). -/
structure Channel where
  name : PValue
  functionBlocks : List (List AmpProp)
deriving DecidableEq, Repr

/-- A device signal, identified by its name. -/
structure Sig where
  name : String
deriving DecidableEq, Repr

/-- Device-resident state touched by the configurator: the recursively
enumerated channel list and the flat signal catalog. -/
structure DeviceState where
  channels : List Channel
  signals : List Sig
deriving DecidableEq, Repr

/-- Diagnostic printed by `_configure_channel` for a requested value outside
the legal-value list (the code concatenates two f-strings directly, with no
separator before `Available`). -/
def notAvailableMsg (newSetting : PValue) (propertyName : String)
    (availableValues : List PValue) : String :=
  "Setting " ++ newSetting.render ++ " not available for property " ++
    propertyName ++ "Available values are: " ++ renderValues availableValues

/-- The property loop of `_configure_channel` over the amplifier's visible
properties: for a property named in the settings record, the code first
materializes `list(prop.selection_values)` (which raises when
`selection_values` is `None`), then either stores the requested value's index
in that list or prints a diagnostic and leaves the property alone.  Returns
the updated property list and the printed diagnostics. -/
def configureProps : List AmpProp → Settings →
    Except String (List AmpProp × List String)
  | [], _ => .ok ([], [])
  | p :: ps, settings =>
    match settings.lookup p.name with
    | none => do
        let (ps', logs) ← configureProps ps settings
        return (p :: ps', logs)
    | some newSetting =>
        match p.selectionValues with
        | none =>
            .error ("TypeError: NoneType object is not iterable (property " ++
              p.name ++ ")")
        | some availableValues =>
            if newSetting ∈ availableValues then do
              let (ps', logs) ← configureProps ps settings
              return ({ p with
                value := .num (availableValues.indexOf newSetting) } :: ps',
                logs)
            else do
              let (ps', logs) ← configureProps ps settings
              return (p :: ps',
                notAvailableMsg newSetting p.name availableValues :: logs)

/-- Embedding of `SiriusX._configure_channel`: index into the channel list,
set the display name from the settings record, and run the property loop on
function block 0 (the amplifier). -/
def configureChannel (st : DeviceState) (channelNum : ℕ)
    (settings : Settings) : Except String (DeviceState × List String) :=
  match st.channels[channelNum]? with
  | none => .error "IndexError: list index out of range"
  | some ch =>
    let ch := { ch with name := (settings.lookup "Name").getD ch.name }
    match ch.functionBlocks with
    | [] => .error "IndexError: list index out of range (function blocks)"
    | amplifier :: restBlocks => do
        let (amplifier', logs) ← configureProps amplifier settings
        let ch' := { ch with functionBlocks := amplifier' :: restBlocks }
        return ({ st with channels := st.channels.set channelNum ch' }, logs)

/-- The per-channel loop of `configure_channels`, threading the device state
and collecting the printed diagnostics. -/
def configurePass (st : DeviceState) :
    List (ℕ × Settings) → Except String (DeviceState × List String)
  | [] => .ok (st, [])
  | (channelNum, settings) :: rest => do
      let (st', logs) ← configureChannel st channelNum settings
      let (st'', logs') ← configurePass st' rest
      return (st'', logs ++ logs')

/-- Model of the Python substring test `needle in hay`: the needle is a
prefix of some suffix of the haystack. -/
def pyInStr (needle : List Char) : List Char → Bool
  | [] => List.isPrefixOf needle []
  | hay@(_ :: cs) => List.isPrefixOf needle hay || pyInStr needle cs

/-- Embedding of `SiriusX.get_available_ai_signals`: filter the signal
catalog to the signals whose name contains the substring `"AI "`. -/
def get_available_ai_signals (st : DeviceState) : List Sig :=
  st.signals.filter fun s => pyInStr "AI ".toList s.name.toList

/-- Python list indexing in the comprehension
`[ai_signals[i] for i in self.selected_channels]`: any out-of-range index
raises `IndexError`. -/
def selectSignals (aiSignals : List Sig) : List ℕ → Except String (List Sig)
  | [] => .ok []
  | k :: ks =>
    match aiSignals[k]? with
    | none => .error "IndexError: list index out of range"
    | some s => do
        let rest ← selectSignals aiSignals ks
        return (s :: rest)

/-- Embedding of `SiriusX.configure_channels`: configure every channel in the
map's iteration order, then derive the ordered active-signal list by indexing
the AI-signal catalog at the map's keys. -/
def configure_channels (st : DeviceState)
    (channelSettings : List (ℕ × Settings)) :
    Except String (DeviceState × List Sig × List String) := do
  let (st', logs) ← configurePass st channelSettings
  let aiSignals := get_available_ai_signals st'
  let selectedSignals ← selectSignals aiSignals
    (channelSettings.map Prod.fst)
  return (st', selectedSignals, logs)

@[simp] lemma ok_bind {ε α β : Type _} (a : α) (f : α → Except ε β) :
    (Except.ok a >>= f : Except ε β) = f a := rfl

@[simp] lemma error_bind {ε α β : Type _} (e : ε) (f : α → Except ε β) :
    (Except.error e >>= f : Except ε β) = Except.error e := rfl

@[simp] lemma ok_fmap {ε α β : Type _} (f : α → β) (a : α) :
    (f <$> (Except.ok a : Except ε α)) = Except.ok (f a) := rfl

@[simp] lemma error_fmap {ε α β : Type _} (f : α → β) (e : ε) :
    (f <$> (Except.error e : Except ε α)) = Except.error e := rfl

/-- Closed form of what the property loop does to one property (assuming its
legal-value list is present whenever the loop consults it). -/
def propOutcome (settings : Settings) (q : AmpProp) : AmpProp :=
  match settings.lookup q.name with
  | none => q
  | some w =>
    match q.selectionValues with
    | none => q
    | some avail =>
        if w ∈ avail then { q with value := .num (avail.indexOf w) } else q

/-- Closed form of the diagnostics the property loop prints for one
property. -/
def propLog (settings : Settings) (q : AmpProp) : List String :=
  match settings.lookup q.name with
  | none => []
  | some w =>
    match q.selectionValues with
    | none => []
    | some avail =>
        if w ∈ avail then [] else [notAvailableMsg w q.name avail]

lemma configureProps_eq_map (settings : Settings) :
    ∀ amplifier : List AmpProp,
      (∀ q ∈ amplifier, (settings.lookup q.name).isSome →
        q.selectionValues ≠ none) →
      configureProps amplifier settings =
        .ok (amplifier.map (propOutcome settings),
          (amplifier.map (propLog settings)).flatten) := by
  intro amp
  induction amp with
  | nil => intro _; rfl
  | cons p ps ih =>
    intro henum
    have hps := ih fun q hq hs => henum q (List.mem_cons_of_mem _ hq) hs
    cases hl : settings.lookup p.name with
    | none => simp [configureProps, hl, hps, propOutcome, propLog]
    | some w =>
      cases hsel : p.selectionValues with
      | none =>
        exact absurd hsel
          (henum p (List.mem_cons_self _ _) (by simp [hl]))
      | some avail =>
        by_cases hmem : w ∈ avail
        · simp [configureProps, hl, hsel, hmem, hps, propOutcome, propLog]
        · simp [configureProps, hl, hsel, hmem, hps, propOutcome, propLog]

lemma configureProps_err (settings : Settings) :
    ∀ amplifier : List AmpProp,
      (∃ p ∈ amplifier, (settings.lookup p.name).isSome ∧
        p.selectionValues = none) →
      ∃ msg, configureProps amplifier settings = .error msg := by
  intro amp
  induction amp with
  | nil =>
    rintro ⟨p, hp, -⟩
    simp at hp
  | cons p ps ih =>
    rintro ⟨q, hq, hqs, hqn⟩
    rcases List.mem_cons.mp hq with rfl | hmem
    · obtain ⟨w, hw⟩ := Option.isSome_iff_exists.mp hqs
      refine ⟨"TypeError: NoneType object is not iterable (property " ++
        q.name ++ ")", ?_⟩
      simp only [configureProps, hw, hqn]
    · cases hl : settings.lookup p.name with
      | none =>
        obtain ⟨msg, hmsg⟩ := ih ⟨q, hmem, hqs, hqn⟩
        exact ⟨msg, by simp [configureProps, hl, hmsg]⟩
      | some w =>
        cases hsel : p.selectionValues with
        | none =>
          refine ⟨"TypeError: NoneType object is not iterable (property " ++
            p.name ++ ")", ?_⟩
          simp only [configureProps, hl, hsel]
        | some avail =>
          obtain ⟨msg, hmsg⟩ := ih ⟨q, hmem, hqs, hqn⟩
          by_cases hv : w ∈ avail
          · exact ⟨msg, by simp [configureProps, hl, hsel, hv, hmsg]⟩
          · exact ⟨msg, by simp [configureProps, hl, hsel, hv, hmsg]⟩

/-- The channel record written back by `_configure_channel`: display name
taken from the settings record when present, amplifier block replaced by the
updated property list. -/
def updatedChannel (ch : Channel) (settings : Settings)
    (amplifier' : List AmpProp) (restBlocks : List (List AmpProp)) :
    Channel :=
  ⟨(settings.lookup "Name").getD ch.name, amplifier' :: restBlocks⟩

lemma configureChannel_eq (st : DeviceState) (channelNum : ℕ)
    (settings : Settings) (ch : Channel) (amplifier : List AmpProp)
    (restBlocks : List (List AmpProp)) (amplifier' : List AmpProp)
    (logs : List String) (hch : st.channels[channelNum]? = some ch)
    (hfb : ch.functionBlocks = amplifier :: restBlocks)
    (hcp : configureProps amplifier settings = .ok (amplifier', logs)) :
    configureChannel st channelNum settings = .ok
      ({ st with channels := st.channels.set channelNum (updatedChannel ch settings amplifier' restBlocks) }, logs) := by
  simp [configureChannel, hch, hfb, hcp, updatedChannel]

lemma configureChannel_err_of_props (st : DeviceState) (channelNum : ℕ)
    (settings : Settings) (ch : Channel) (amplifier : List AmpProp)
    (restBlocks : List (List AmpProp)) (msg : String)
    (hch : st.channels[channelNum]? = some ch)
    (hfb : ch.functionBlocks = amplifier :: restBlocks)
    (hcp : configureProps amplifier settings = .error msg) :
    configureChannel st channelNum settings = .error msg := by
  simp [configureChannel, hch, hfb, hcp]

lemma configureChannel_ok_inv (st : DeviceState) (channelNum : ℕ)
    (settings : Settings) (st' : DeviceState) (logs : List String)
    (h : configureChannel st channelNum settings = .ok (st', logs)) :
    channelNum < st.channels.length ∧
      st'.channels.length = st.channels.length ∧
      st'.signals = st.signals := by
  cases hch : st.channels[channelNum]? with
  | none => simp [configureChannel, hch] at h
  | some ch =>
    cases hfb : ch.functionBlocks with
    | nil => simp [configureChannel, hch, hfb] at h
    | cons amplifier restBlocks =>
      cases hcp : configureProps amplifier settings with
      | error msg => simp [configureChannel, hch, hfb, hcp] at h
      | ok res =>
        obtain ⟨amplifier', logs'⟩ := res
        rw [configureChannel_eq st channelNum settings ch amplifier
          restBlocks amplifier' logs' hch hfb hcp] at h
        simp only [Except.ok.injEq, Prod.mk.injEq] at h
        obtain ⟨rfl, rfl⟩ := h
        refine ⟨?_, by simp, rfl⟩
        exact (List.getElem?_eq_some.mp hch).1

lemma configurePass_ok_inv :
    ∀ (cfg : List (ℕ × Settings)) (st st' : DeviceState)
      (logs : List String), configurePass st cfg = .ok (st', logs) →
      st'.signals = st.signals ∧
      st'.channels.length = st.channels.length ∧
      ∀ k ∈ cfg.map Prod.fst, k < st.channels.length := by
  intro cfg
  induction cfg with
  | nil =>
    intro st st' logs h
    obtain ⟨rfl, rfl⟩ : st = st' ∧ [] = logs := by
      simpa [configurePass] using h
    simp
  | cons hd rest ih =>
    intro st st' logs h
    obtain ⟨k, s⟩ := hd
    cases hcc : configureChannel st k s with
    | error msg => simp [configurePass, hcc] at h
    | ok res1 =>
      obtain ⟨st1, l1⟩ := res1
      cases hcp : configurePass st1 rest with
      | error msg => simp [configurePass, hcc, hcp] at h
      | ok res2 =>
        obtain ⟨st2, l2⟩ := res2
        obtain ⟨hk, hlen1, hsig1⟩ := configureChannel_ok_inv st k s st1 l1 hcc
        obtain ⟨hsig2, hlen2, hkeys⟩ := ih st1 st2 l2 hcp
        simp only [configurePass, hcc, hcp, ok_bind, ok_fmap,
          Except.ok.injEq, Prod.mk.injEq] at h
        obtain ⟨rfl, rfl⟩ := h
        refine ⟨hsig2.trans hsig1, hlen2.trans hlen1, ?_⟩
        intro x hx
        rw [List.map_cons, List.mem_cons] at hx
        rcases hx with rfl | hx'
        · exact hk
        · exact hlen1 ▸ hkeys x hx'

lemma selectSignals_ok (ai : List Sig) :
    ∀ keys : List ℕ, (∀ k ∈ keys, k < ai.length) →
      ∃ sel, selectSignals ai keys = .ok sel ∧
        sel.length = keys.length ∧
        ∀ i : ℕ, sel[i]? = (keys[i]?).bind fun k => ai[k]? := by
  intro keys
  induction keys with
  | nil => exact fun _ => ⟨[], rfl, rfl, by simp⟩
  | cons k ks ih =>
    intro hb
    obtain ⟨sel, hok, hlen, hget⟩ :=
      ih fun x hx => hb x (List.mem_cons_of_mem _ hx)
    have hk : k < ai.length := hb k (List.mem_cons_self _ _)
    have hs : ai[k]? = some ai[k] := List.getElem?_eq_getElem hk
    refine ⟨ai[k] :: sel, by simp [selectSignals, hs, hok], by simp [hlen],
      ?_⟩
    intro i
    cases i with
    | zero => simp [hs]
    | succ i => simp [hget i]

lemma selectSignals_err (ai : List Sig) :
    ∀ keys : List ℕ, (∃ k ∈ keys, ai.length ≤ k) →
      ∃ msg, selectSignals ai keys = .error msg := by
  intro keys
  induction keys with
  | nil =>
    rintro ⟨k, hk, -⟩
    simp at hk
  | cons k ks ih =>
    rintro ⟨x, hx, hge⟩
    rcases List.mem_cons.mp hx with rfl | hmem
    · have hnone : ai[x]? = none := List.getElem?_eq_none hge
      refine ⟨"IndexError: list index out of range", ?_⟩
      simp only [selectSignals, hnone]
    · cases hak : ai[k]? with
      | none =>
        refine ⟨"IndexError: list index out of range", ?_⟩
        simp only [selectSignals, hak]
      | some s =>
        obtain ⟨msg, hmsg⟩ := ih ⟨x, hmem, hge⟩
        exact ⟨msg, by simp [selectSignals, hak, hmsg]⟩

/-- C2: when the requested value of an enumerated amplifier property is not a
member of its legal-value set, `_configure_channel` does not raise, the
property keeps its prior value, a diagnostic naming the property, the
rejected value and the full legal-value set is printed, every other property
with a valid requested value is still configured, and the per-channel loop
continues with the remaining channels. -/
theorem claimC2_invalid_enum_recoverable (st : DeviceState)
    (channelNum : ℕ) (settings : Settings) (ch : Channel)
    (amplifier : List AmpProp) (restBlocks : List (List AmpProp))
    (hch : st.channels[channelNum]? = some ch)
    (hfb : ch.functionBlocks = amplifier :: restBlocks)
    (henum : ∀ q ∈ amplifier, (settings.lookup q.name).isSome →
      q.selectionValues ≠ none)
    (i : ℕ) (p : AmpProp) (hp : amplifier[i]? = some p)
    (newSetting : PValue) (availableValues : List PValue)
    (hlook : settings.lookup p.name = some newSetting)
    (hsel : p.selectionValues = some availableValues)
    (hinvalid : newSetting ∉ availableValues) :
    ∃ st' logs, configureChannel st channelNum settings = .ok (st', logs) ∧
      notAvailableMsg newSetting p.name availableValues ∈ logs ∧
      (∃ amplifier',
        st'.channels[channelNum]? =
          some (updatedChannel ch settings amplifier' restBlocks) ∧
        amplifier'.length = amplifier.length ∧
        amplifier'[i]? = some p ∧
        (∀ j : ℕ, ∀ q w avail, amplifier[j]? = some q →
          settings.lookup q.name = some w →
          q.selectionValues = some avail → w ∈ avail →
          amplifier'[j]? =
            some { q with value := .num (avail.indexOf w) })) ∧
      (∀ rest, configurePass st ((channelNum, settings) :: rest) =
        (fun r => (r.1, logs ++ r.2)) <$> configurePass st' rest) := by
  have hcp := configureProps_eq_map settings amplifier henum
  have hcc := configureChannel_eq st channelNum settings ch amplifier
    restBlocks _ _ hch hfb hcp
  refine ⟨_, _, hcc, ?_, ⟨amplifier.map (propOutcome settings), ?_,
    by simp, ?_, ?_⟩, ?_⟩
  · exact List.mem_flatten_of_mem
      (List.mem_map_of_mem _ (List.getElem?_mem hp))
      (by simp [propLog, hlook, hsel, hinvalid])
  · have hk : channelNum < st.channels.length :=
      (List.getElem?_eq_some.mp hch).1
    simp [List.getElem?_set_self hk]
  · rw [List.getElem?_map, hp]
    simp [propOutcome, hlook, hsel, hinvalid]
  · intro j q w avail hq hlq hsq hwq
    rw [List.getElem?_map, hq]
    simp [propOutcome, hlq, hsq, hwq]
  · intro rest
    simp [configurePass, hcc]

/-- Witness channel state: two enumerated amplifier properties, mirroring the
measurement-mode and high-pass-filter enumerations of the device. -/
def demoAmp : List AmpProp :=
  [⟨"Measurement", .num 0, some [.str "IEPE", .str "Voltage"]⟩,
   ⟨"HPFilter", .num 0, some [.str "AC 0.1Hz", .str "AC 1Hz"]⟩]

/-- Witness channel built around `demoAmp`. -/
def demoChannel : Channel := ⟨.str "AI 1", [demoAmp]⟩

/-- Witness device state: two channels and three signals, of which the first
two are AI signals. -/
def demoState : DeviceState :=
  ⟨[demoChannel, demoChannel], [⟨"AI 1"⟩, ⟨"AI 2"⟩, ⟨"RefCh"⟩]⟩

/-- Witness settings requesting an invalid measurement mode and a valid
high-pass-filter value. -/
def demoSettingsInvalid : Settings :=
  [("Measurement", .str "Current"), ("HPFilter", .str "AC 1Hz")]

/-- Witness for C2: the invalid measurement mode is reported, left alone, and
the valid filter value is still stored as its index. -/
theorem claimC2_witness :
    ∃ st' logs,
      configureChannel demoState 0 demoSettingsInvalid = .ok (st', logs) ∧
      notAvailableMsg (.str "Current") "Measurement"
        [.str "IEPE", .str "Voltage"] ∈ logs ∧
      (∃ amplifier',
        st'.channels[0]? =
          some (updatedChannel demoChannel demoSettingsInvalid amplifier'
            [] ) ∧
        amplifier'.length = demoAmp.length ∧
        amplifier'[0]? =
          some ⟨"Measurement", .num 0, some [.str "IEPE", .str "Voltage"]⟩ ∧
        (∀ j : ℕ, ∀ q w avail, demoAmp[j]? = some q →
          demoSettingsInvalid.lookup q.name = some w →
          q.selectionValues = some avail → w ∈ avail →
          amplifier'[j]? =
            some { q with value := .num (avail.indexOf w) })) ∧
      (∀ rest, configurePass demoState ((0, demoSettingsInvalid) :: rest) =
        (fun r => (r.1, logs ++ r.2)) <$> configurePass st' rest) :=
  claimC2_invalid_enum_recoverable demoState 0 demoSettingsInvalid
    demoChannel demoAmp [] rfl rfl (by decide) 0
    ⟨"Measurement", .num 0, some [.str "IEPE", .str "Voltage"]⟩ rfl
    (.str "Current") [.str "IEPE", .str "Voltage"] rfl rfl (by decide)

/-- C3: when the requested value of an enumerated amplifier property is a
member of its legal-value set, the value stored into the underlying property
is the index of the requested value in the then-current legal-value list, not
the raw value. -/
theorem claimC3_valid_enum_stores_index (st : DeviceState)
    (channelNum : ℕ) (settings : Settings) (ch : Channel)
    (amplifier : List AmpProp) (restBlocks : List (List AmpProp))
    (hch : st.channels[channelNum]? = some ch)
    (hfb : ch.functionBlocks = amplifier :: restBlocks)
    (henum : ∀ q ∈ amplifier, (settings.lookup q.name).isSome →
      q.selectionValues ≠ none)
    (i : ℕ) (p : AmpProp) (hp : amplifier[i]? = some p)
    (newSetting : PValue) (availableValues : List PValue)
    (hlook : settings.lookup p.name = some newSetting)
    (hsel : p.selectionValues = some availableValues)
    (hvalid : newSetting ∈ availableValues) :
    ∃ st' logs amplifier',
      configureChannel st channelNum settings = .ok (st', logs) ∧
      st'.channels[channelNum]? =
        some (updatedChannel ch settings amplifier' restBlocks) ∧
      amplifier'[i]? =
        some { p with
          value := .num (availableValues.indexOf newSetting) } := by
  have hcp := configureProps_eq_map settings amplifier henum
  have hcc := configureChannel_eq st channelNum settings ch amplifier
    restBlocks _ _ hch hfb hcp
  refine ⟨_, _, amplifier.map (propOutcome settings), hcc, ?_, ?_⟩
  · have hk : channelNum < st.channels.length :=
      (List.getElem?_eq_some.mp hch).1
    simp [List.getElem?_set_self hk]
  · rw [List.getElem?_map, hp]
    simp [propOutcome, hlook, hsel, hvalid]

/-- Witness settings requesting two valid enumerated values. -/
def demoSettingsValid : Settings :=
  [("Measurement", .str "Voltage"), ("HPFilter", .str "AC 1Hz")]

/-- Witness for C3: requesting `Voltage` stores index 1, the position of
`Voltage` in the legal-value list. -/
theorem claimC3_witness :
    ∃ st' logs amplifier',
      configureChannel demoState 0 demoSettingsValid = .ok (st', logs) ∧
      st'.channels[0]? =
        some (updatedChannel demoChannel demoSettingsValid amplifier' []) ∧
      amplifier'[0]? =
        some ⟨"Measurement", .num 1, some [.str "IEPE", .str "Voltage"]⟩ :=
  claimC3_valid_enum_stores_index demoState 0 demoSettingsValid demoChannel
    demoAmp [] rfl rfl (by decide) 0
    ⟨"Measurement", .num 0, some [.str "IEPE", .str "Voltage"]⟩ rfl
    (.str "Voltage") [.str "IEPE", .str "Voltage"] rfl rfl (by decide)

/-- C9: when an amplifier property named in the settings record has no
enumerated legal-value list (`selection_values` is `None`), the call raises
(the code materializes `list(prop.selection_values)` unconditionally), rather
than skipping the property or reporting an invalid value; leniency is
reserved for properties that do carry a legal-value list. -/
theorem claimC9_non_enum_named_raises (st : DeviceState) (channelNum : ℕ)
    (settings : Settings) (ch : Channel) (amplifier : List AmpProp)
    (restBlocks : List (List AmpProp))
    (hch : st.channels[channelNum]? = some ch)
    (hfb : ch.functionBlocks = amplifier :: restBlocks)
    (p : AmpProp) (hp : p ∈ amplifier)
    (hlook : (settings.lookup p.name).isSome)
    (hsel : p.selectionValues = none) :
    ∃ msg, configureChannel st channelNum settings = .error msg := by
  obtain ⟨msg, hmsg⟩ :=
    configureProps_err settings amplifier ⟨p, hp, hlook, hsel⟩
  exact ⟨msg, configureChannel_err_of_props st channelNum settings ch
    amplifier restBlocks msg hch hfb hmsg⟩

/-- Witness channel whose amplifier has a non-enumerated property. -/
def demoStateNonEnum : DeviceState :=
  ⟨[⟨.str "AI 1", [[⟨"Scaling", .num 3, none⟩]]⟩], [⟨"AI 1"⟩]⟩

/-- Witness for C9: naming the non-enumerated property in the settings makes
the call raise. -/
theorem claimC9_witness :
    ∃ msg, configureChannel demoStateNonEnum 0 [("Scaling", .num 5)] =
      .error msg :=
  claimC9_non_enum_named_raises demoStateNonEnum 0 [("Scaling", .num 5)]
    ⟨.str "AI 1", [[⟨"Scaling", .num 3, none⟩]]⟩ [⟨"Scaling", .num 3, none⟩]
    [] rfl rfl ⟨"Scaling", .num 3, none⟩ (by decide) (by decide) rfl

/-- C4: for a channel-config map whose keys are in bounds (and whose
configuration pass completes), `configure_channels` produces an
active-signal list with one entry per map key, where the `i`-th entry is the
AI-signal-catalog entry at the `i`-th key in the map's insertion order —
independent of catalog order; for the empty map everything is a no-op. -/
theorem claimC4_active_signal_ordering (st : DeviceState)
    (cfg : List (ℕ × Settings)) (st' : DeviceState) (logs : List String)
    (hpass : configurePass st cfg = .ok (st', logs))
    (hbounds : ∀ k ∈ cfg.map Prod.fst,
      k < (get_available_ai_signals st).length) :
    ∃ sel, configure_channels st cfg = .ok (st', sel, logs) ∧
      sel.length = cfg.length ∧
      (∀ i : ℕ, i < cfg.length → sel[i]? =
        (get_available_ai_signals st)[(cfg.map Prod.fst).getD i 0]?) ∧
      (cfg = [] → st' = st ∧ sel = [] ∧ logs = []) := by
  have hsig : st'.signals = st.signals :=
    (configurePass_ok_inv cfg st st' logs hpass).1
  have hai : get_available_ai_signals st' = get_available_ai_signals st := by
    simp [get_available_ai_signals, hsig]
  obtain ⟨sel, hsel, hlen, hget⟩ :=
    selectSignals_ok (get_available_ai_signals st') (cfg.map Prod.fst)
      (by rw [hai]; exact hbounds)
  refine ⟨sel, ?_, by simpa using hlen, ?_, ?_⟩
  · simp [configure_channels, hpass, hsel]
  · intro i hi
    have hgi := hget i
    rw [hai] at hgi
    have h1 : i < (cfg.map Prod.fst).length := by simpa using hi
    have hki : (cfg.map Prod.fst)[i]? =
        some ((cfg.map Prod.fst).getD i 0) := by
      simp [List.getD_eq_getElem?_getD, List.getElem?_eq_getElem h1]
    rw [hgi, hki]
    rfl
  · rintro rfl
    have hp : st = st' ∧ ([] : List String) = logs := by
      simpa [configurePass] using hpass
    exact ⟨hp.1.symm, List.length_eq_zero.mp (by simpa using hlen),
      hp.2.symm⟩

/-- Witness for C4: with keys `[1, 0]` (reversed relative to catalog order)
the active-signal list is catalog entry 1 followed by catalog entry 0. -/
theorem claimC4_witness :
    ∃ sel, configure_channels demoState [(1, []), (0, [])] =
        .ok (demoState, sel, []) ∧
      sel.length = 2 ∧
      (∀ i : ℕ, i < 2 → sel[i]? =
        (get_available_ai_signals demoState)[([1, 0] : List ℕ).getD i 0]?) ∧
      ([((1 : ℕ), ([] : Settings)), ((0 : ℕ), ([] : Settings))] = [] →
        demoState = demoState ∧ sel = [] ∧ ([] : List String) = []) :=
  claimC4_active_signal_ordering demoState [(1, []), (0, [])] demoState []
    rfl (by decide)

/-- C8: a channel-config key at or beyond the bounds of the AI-signal list
(or of the device channel list) makes `configure_channels` raise an indexing
error; the key is never silently truncated or skipped. -/
theorem claimC8_out_of_bounds_key_raises (st : DeviceState)
    (cfg : List (ℕ × Settings))
    (h : ∃ k ∈ cfg.map Prod.fst,
      (get_available_ai_signals st).length ≤ k ∨
        st.channels.length ≤ k) :
    ∃ msg, configure_channels st cfg = .error msg := by
  obtain ⟨k, hk, hcase⟩ := h
  cases hpass : configurePass st cfg with
  | error msg => exact ⟨msg, by simp [configure_channels, hpass]⟩
  | ok res =>
    obtain ⟨st', logs⟩ := res
    obtain ⟨hsig, hlen, hkeys⟩ := configurePass_ok_inv cfg st st' logs hpass
    have hklt : k < st.channels.length := hkeys k hk
    have hge : (get_available_ai_signals st).length ≤ k := by
      rcases hcase with h1 | h1
      · exact h1
      · omega
    have hai : get_available_ai_signals st' =
        get_available_ai_signals st := by
      simp [get_available_ai_signals, hsig]
    obtain ⟨msg, hmsg⟩ := selectSignals_err (get_available_ai_signals st')
      (cfg.map Prod.fst) ⟨k, hk, by rw [hai]; exact hge⟩
    exact ⟨msg, by simp [configure_channels, hpass, hmsg]⟩

/-- Witness for C8: key 5 on a device with a two-entry AI catalog raises. -/
theorem claimC8_witness :
    ∃ msg, configure_channels demoState [(5, [])] = .error msg :=
  claimC8_out_of_bounds_key_raises demoState [(5, [])] (by decide)

/-! ### Acquisition session (`acquire_processed`) -/

/-- Model of Python `int()` on an exact rational: truncation toward zero. -/
def pyInt (q : ℚ) : ℤ := if q < 0 then ⌈q⌉ else ⌊q⌋

/-- Model of `numpy.linspace(start, stop, num)` with the default inclusive
endpoint. -/
def linspace (start stop : ℚ) (num : ℕ) : List ℚ :=
  if num = 0 then []
  else if num = 1 then [start]
  else (List.range num).map fun i =>
    start + (stop - start) * (i : ℚ) / ((num : ℚ) - 1)

/-- Column extraction `raw_data[:, sig_num]` on a (time, channel) array. -/
def col (m : List (List ℚ)) (j : ℕ) : List ℚ :=
  m.map fun row => row.getD j 0

/-- Python dict access expecting a numeric value (`KeyError` when absent; a
string value would make the later division raise). -/
def getNum (s : Settings) (k : String) : Except String ℚ :=
  match s.lookup k with
  | some (.num q) => .ok q
  | some (.str _) => .error ("TypeError: unsupported operand (key " ++ k ++ ")")
  | none => .error ("KeyError: " ++ k)

/-- Python dict access expecting a string value (`KeyError` when absent; a
numeric value would make the later `.split` call raise). -/
def getStr (s : Settings) (k : String) : Except String String :=
  match s.lookup k with
  | some (.str v) => .ok v
  | some (.num _) => .error ("AttributeError: no split attribute (key " ++ k ++ ")")
  | none => .error ("KeyError: " ++ k)

/-- Python dict access with no type expectation (`KeyError` when absent). -/
def getVal (s : Settings) (k : String) : Except String PValue :=
  match s.lookup k with
  | some v => .ok v
  | none => .error ("KeyError: " ++ k)

/-- `_apply_sensitivity` as invoked on one channel: fetch sensitivity, output
unit and sensitivity-unit string from the channel's settings record, then run
the converter.  A non-string output unit matches no unit membership test in
the code and falls through to the arbitrary-unit (scale-only) branch. -/
def applySensitivityCh (s : Settings) (signal : List ℚ) :
    Except String (List ℚ × List String) := do
  let sens ← getNum s "Sensitivity"
  let unitOut ← getVal s "Unit"
  let sensUnit ← getStr s "Sensitivity Unit"
  match unitOut with
  | .str u => return applySensitivity sens u sensUnit signal
  | .num _ => return (signal.map (· / sens), [])

/-- The per-channel processing loop shared by `read_processed` and
`acquire_processed`: `for sig_num, ch_num in enumerate(keys)` over the
enumerated channel-settings entries (iterating the entries is equivalent to
iterating keys and re-indexing, since Python dict keys are unique). -/
def processChannels (rawData : List (List ℚ)) :
    List (ℕ × (ℕ × Settings)) → Except String (List (List ℚ) × List String)
  | [] => .ok ([], [])
  | p :: ps => do
      let (sig, lg) ← applySensitivityCh p.2.2 (col rawData p.1)
      let (rest, lgs) ← processChannels rawData ps
      return (sig :: rest, lg ++ lgs)

/-- A value of the labeled output dict: a signal series plus a unit tag. -/
structure Entry where
  signal : List ℚ
  unit : PValue
deriving DecidableEq, Repr

/-- The two mutually exclusive output shapes of `acquire_processed`. -/
inductive AcqOut where
  | arr (a : List (List ℚ))
  | dict (d : List (PValue × Entry))
deriving DecidableEq, Repr

/-- Python dict assignment `d[k] = v`: overwrite in place when the key is
already present (keeping its position), append otherwise. -/
def pyDictInsert (d : List (PValue × Entry)) (k : PValue) (v : Entry) :
    List (PValue × Entry) :=
  if (d.lookup k).isSome then
    d.map fun kv => if kv.1 = k then (k, v) else kv
  else d ++ [(k, v)]

/-- The dict-population loop of `acquire_processed`: for each enumerated
channel entry, write `{signal, unit}` under the channel's configured name. -/
def buildDataDict (processedData : List (List ℚ)) :
    List (ℕ × (ℕ × Settings)) → List (PValue × Entry) →
    Except String (List (PValue × Entry))
  | [], d => .ok d
  | p :: ps, d => do
      let chName ← getVal p.2.2 "Name"
      let chUnit ← getVal p.2.2 "Unit"
      buildDataDict processedData ps
        (pyDictInsert d chName ⟨processedData.getD p.1 [], chUnit⟩)

/-- Embedding of `SiriusX.acquire_processed`.  The device sample rate and the
reader stand in for the external collaborators: `reader n t` is the native
(channel, time) batch `acquire_raw` obtains for a request of `n` samples with
timeout `t` seconds. -/
def acquire_processed (sampleRate : ℚ) (reader : ℕ → ℚ → List (List ℚ))
    (channelSettings : List (ℕ × Settings)) (acquisitionTime : ℚ)
    (returnDict : Bool) : Except String (AcqOut × List String) := do
  let sampleCount := (pyInt (acquisitionTime * sampleRate)).toNat
  let rawData := npT (reader sampleCount (2 * acquisitionTime))
  let (processedData, logs) ←
    processChannels rawData channelSettings.enum
  if returnDict then
    let d ← buildDataDict processedData channelSettings.enum []
    let timeSig := linspace 0 acquisitionTime sampleCount
    return (.dict (pyDictInsert d (.str "time") ⟨timeSig, .str "s"⟩), logs)
  else
    return (.arr (npT processedData), logs)

lemma lookup_append (d e : List (PValue × Entry)) (k : PValue) :
    (d ++ e).lookup k =
      match d.lookup k with
      | some v => some v
      | none => e.lookup k := by
  induction d with
  | nil => simp [List.lookup]
  | cons a d ih =>
    obtain ⟨ak, av⟩ := a
    by_cases hk : k = ak
    · simp [List.lookup, hk]
    · simp only [List.cons_append, List.lookup,
        beq_eq_false_iff_ne.mpr hk]
      exact ih

lemma lookup_map_replace :
    ∀ (d : List (PValue × Entry)) (k : PValue) (v : Entry),
      (d.lookup k).isSome →
      ((d.map fun kv => if kv.1 = k then (k, v) else kv).lookup k) =
        some v := by
  intro d
  induction d with
  | nil => intro k v h; simp [List.lookup] at h
  | cons a d ih =>
    obtain ⟨ak, av⟩ := a
    intro k v h
    by_cases hk : ak = k
    · have hhead :
          (if ((ak, av) : PValue × Entry).1 = k then (k, v) else (ak, av)) =
            ((k, v) : PValue × Entry) := by simp [hk]
      rw [List.map_cons, hhead]
      simp [List.lookup]
    · have hhead :
          (if ((ak, av) : PValue × Entry).1 = k then (k, v) else (ak, av)) =
            ((ak, av) : PValue × Entry) := by simp [hk]
      have h' : (d.lookup k).isSome := by
        simpa [List.lookup, beq_eq_false_iff_ne.mpr (Ne.symm hk)] using h
      rw [List.map_cons, hhead]
      simpa [List.lookup, beq_eq_false_iff_ne.mpr (Ne.symm hk)]
        using ih k v h'

lemma lookup_map_replace_ne :
    ∀ (d : List (PValue × Entry)) (k : PValue) (v : Entry) (k' : PValue),
      k' ≠ k →
      ((d.map fun kv => if kv.1 = k then (k, v) else kv).lookup k') =
        d.lookup k' := by
  intro d
  induction d with
  | nil => intro k v k' _; simp [List.lookup]
  | cons a d ih =>
    obtain ⟨ak, av⟩ := a
    intro k v k' hne
    by_cases hk : ak = k
    · have hhead :
          (if ((ak, av) : PValue × Entry).1 = k then (k, v) else (ak, av)) =
            ((k, v) : PValue × Entry) := by simp [hk]
      rw [List.map_cons, hhead]
      have hne' : k' ≠ ak := hk ▸ hne
      simp only [List.lookup, beq_eq_false_iff_ne.mpr hne,
        beq_eq_false_iff_ne.mpr hne']
      exact ih k v k' hne
    · have hhead :
          (if ((ak, av) : PValue × Entry).1 = k then (k, v) else (ak, av)) =
            ((ak, av) : PValue × Entry) := by simp [hk]
      rw [List.map_cons, hhead]
      by_cases hk' : k' = ak
      · simp [List.lookup, hk']
      · simp only [List.lookup, beq_eq_false_iff_ne.mpr hk']
        exact ih k v k' hne

lemma pyDictInsert_lookup_self (d : List (PValue × Entry)) (k : PValue)
    (v : Entry) : (pyDictInsert d k v).lookup k = some v := by
  unfold pyDictInsert
  split
  · exact lookup_map_replace d k v (by assumption)
  · rename_i h
    rw [lookup_append]
    have : d.lookup k = none := Option.not_isSome_iff_eq_none.mp h
    simp [this, List.lookup]

lemma pyDictInsert_lookup_ne (d : List (PValue × Entry)) (k : PValue)
    (v : Entry) (k' : PValue) (h : k' ≠ k) :
    (pyDictInsert d k v).lookup k' = d.lookup k' := by
  unfold pyDictInsert
  split
  · exact lookup_map_replace_ne d k v k' h
  · rw [lookup_append]
    cases hd : d.lookup k' with
    | some v' => rfl
    | none => simp [List.lookup, beq_eq_false_iff_ne.mpr h]

lemma pyDictInsert_length (d : List (PValue × Entry)) (k : PValue)
    (v : Entry) :
    (pyDictInsert d k v).length =
      if (d.lookup k).isSome then d.length else d.length + 1 := by
  unfold pyDictInsert
  split <;> simp [*]

lemma mem_fst_lookup_isSome :
    ∀ (d : List (PValue × Entry)) (kv : PValue × Entry), kv ∈ d →
      (d.lookup kv.1).isSome := by
  intro d
  induction d with
  | nil => intro kv h; simp at h
  | cons a d ih =>
    obtain ⟨ak, av⟩ := a
    intro kv h
    by_cases hk : kv.1 = ak
    · simp [List.lookup, hk]
    · rcases List.mem_cons.mp h with rfl | h'
      · exact absurd rfl hk
      · simpa [List.lookup, beq_eq_false_iff_ne.mpr hk] using ih kv h'

lemma foldl_insert_fresh_append :
    ∀ (entries d : List (PValue × Entry)),
      (∀ kv ∈ entries, d.lookup kv.1 = none) →
      (entries.map Prod.fst).Nodup →
      entries.foldl (fun d kv => pyDictInsert d kv.1 kv.2) d =
        d ++ entries := by
  intro entries
  induction entries with
  | nil => intro d _ _; simp
  | cons e es ih =>
    obtain ⟨ek, ev⟩ := e
    intro d hfresh hnodup
    have he : pyDictInsert d ek ev = d ++ [(ek, ev)] := by
      unfold pyDictInsert
      rw [if_neg]
      simp [hfresh (ek, ev) (List.mem_cons_self _ _)]
    have hknot : ek ∉ es.map Prod.fst :=
      (List.nodup_cons.mp (by simpa using hnodup)).1
    have hfresh' : ∀ kv ∈ es, ((d ++ [(ek, ev)]).lookup kv.1) = none := by
      intro kv hkv
      rw [lookup_append, hfresh kv (List.mem_cons_of_mem _ hkv)]
      have hne : kv.1 ≠ ek := by
        intro heq
        exact hknot (heq ▸ List.mem_map_of_mem _ hkv)
      simp [List.lookup, beq_eq_false_iff_ne.mpr hne]
    rw [List.foldl_cons, he,
      ih (d ++ [(ek, ev)]) hfresh' (List.nodup_cons.mp (by simpa using hnodup)).2]
    simp

lemma foldl_insert_length_le :
    ∀ (entries d : List (PValue × Entry)),
      (entries.foldl (fun d kv => pyDictInsert d kv.1 kv.2) d).length ≤
        d.length + entries.length := by
  intro entries
  induction entries with
  | nil => intro d; simp
  | cons e es ih =>
    intro d
    rw [List.foldl_cons]
    have h1 := ih (pyDictInsert d e.1 e.2)
    have h2 := pyDictInsert_length d e.1 e.2
    have h3 : (pyDictInsert d e.1 e.2).length ≤ d.length + 1 := by
      rw [h2]; split <;> omega
    simp only [List.length_cons]
    omega

lemma foldl_insert_key_present :
    ∀ (entries d : List (PValue × Entry)) (k : PValue),
      ((d.lookup k).isSome ∨ ∃ kv ∈ entries, kv.1 = k) →
      ((entries.foldl (fun d kv => pyDictInsert d kv.1 kv.2) d).lookup
        k).isSome := by
  intro entries
  induction entries with
  | nil =>
    intro d k h
    rcases h with h | ⟨kv, hkv, -⟩
    · exact h
    · simp at hkv
  | cons e es ih =>
    intro d k h
    rw [List.foldl_cons]
    apply ih
    rcases h with h | ⟨kv, hkv, hk⟩
    · left
      by_cases hke : k = e.1
      · subst hke
        rw [pyDictInsert_lookup_self]
        rfl
      · rw [pyDictInsert_lookup_ne _ _ _ _ hke]
        exact h
    · rcases List.mem_cons.mp hkv with rfl | hmem
      · left
        rw [← hk, pyDictInsert_lookup_self]
        rfl
      · exact Or.inr ⟨kv, hmem, hk⟩

lemma lookup_map_pairs {α : Type _} (key : α → PValue) (val : α → Entry) :
    ∀ (l : List α) (x : α), x ∈ l →
      (∀ y ∈ l, key y = key x → val y = val x) →
      ((l.map fun y => (key y, val y)).lookup (key x)) = some (val x) := by
  intro l
  induction l with
  | nil => intro x hx _; simp at hx
  | cons a l ih =>
    intro x hx hcong
    by_cases hk : key x = key a
    · have hval : val a = val x :=
        hcong a (List.mem_cons_self _ _) hk.symm
      simp [List.lookup, hk, hval]
    · have hx' : x ∈ l := by
        rcases List.mem_cons.mp hx with rfl | h
        · exact absurd rfl hk
        · exact h
      simp only [List.map_cons, List.lookup,
        beq_eq_false_iff_ne.mpr hk]
      exact ih x hx' fun y hy => hcong y (List.mem_cons_of_mem _ hy)

lemma lookup_map_pairs_none {α : Type _} (key : α → PValue)
    (val : α → Entry) :
    ∀ (l : List α) (k : PValue), (∀ y ∈ l, key y ≠ k) →
      ((l.map fun y => (key y, val y)).lookup k) = none := by
  intro l
  induction l with
  | nil => intro k _; simp [List.lookup]
  | cons a l ih =>
    intro k hk
    simp only [List.map_cons, List.lookup,
      beq_eq_false_iff_ne.mpr (Ne.symm (hk a (List.mem_cons_self _ _)))]
    exact ih k fun y hy => hk y (List.mem_cons_of_mem _ hy)

lemma mem_enum_elim {α : Type _} (l : List α) (p : ℕ × α)
    (hp : p ∈ l.enum) :
    p.1 < l.length ∧ l[p.1]? = some p.2 := by
  obtain ⟨j, hj, hgj⟩ := List.getElem_of_mem hp
  have hj' : j < l.length := by simpa [List.enum_eq_enumFrom] using hj
  have : l.enum[j] = (0 + j, l[j]) := List.getElem_enumFrom l 0 j hj
  rw [this] at hgj
  obtain rfl : p = (j, l[j]) := by simpa using hgj.symm
  exact ⟨hj', List.getElem?_eq_getElem hj'⟩

lemma mem_enum_intro {α : Type _} (l : List α) (i : ℕ)
    (hi : i < l.length) : (i, l[i]) ∈ l.enum := by
  have h : l.enum[i]? = some (i, l[i]) := by
    show (l.enumFrom 0)[i]? = _
    rw [List.getElem?_enumFrom, List.getElem?_eq_getElem hi]
    simp
  exact List.getElem?_mem h

lemma processChannels_eq (rawData : List (List ℚ))
    (F : ℕ → List ℚ × List String) :
    ∀ l : List (ℕ × (ℕ × Settings)),
      (∀ p ∈ l, applySensitivityCh p.2.2 (col rawData p.1) = .ok (F p.1)) →
      processChannels rawData l =
        .ok (l.map fun p => (F p.1).1,
          (l.map fun p => (F p.1).2).flatten) := by
  intro l
  induction l with
  | nil => intro _; rfl
  | cons p ps ih =>
    intro h
    simp [processChannels, h p (List.mem_cons_self _ _),
      ih fun q hq => h q (List.mem_cons_of_mem _ hq)]

lemma buildDataDict_eq (pd : List (List ℚ)) (key un : ℕ → PValue) :
    ∀ (l : List (ℕ × (ℕ × Settings))) (d : List (PValue × Entry)),
      (∀ p ∈ l, p.2.2.lookup "Name" = some (key p.1) ∧
        p.2.2.lookup "Unit" = some (un p.1)) →
      buildDataDict pd l d = .ok
        ((l.map fun p => (key p.1,
          (⟨pd.getD p.1 [], un p.1⟩ : Entry))).foldl
            (fun d kv => pyDictInsert d kv.1 kv.2) d) := by
  intro l
  induction l with
  | nil => intro d _; rfl
  | cons p ps ih =>
    intro d h
    obtain ⟨hname, hunit⟩ := h p (List.mem_cons_self _ _)
    simp [buildDataDict, getVal, hname, hunit,
      ih _ fun q hq => h q (List.mem_cons_of_mem _ hq)]

/-- The raw (time, channel) batch `acquire_processed` works on: the reader's
native batch for the computed sample count and the doubled timeout,
transposed. -/
def rawOf (sampleRate : ℚ) (reader : ℕ → ℚ → List (List ℚ)) (t : ℚ) :
    List (List ℚ) :=
  npT (reader (pyInt (t * sampleRate)).toNat (2 * t))

/-- The calibrated series (and diagnostics) of the channel at position `i` of
the channel-config map, for per-channel metadata given by the functions
`units`, `sensUnits` and `sens`. -/
def calSeries (sampleRate : ℚ) (reader : ℕ → ℚ → List (List ℚ)) (t : ℚ)
    (units sensUnits : ℕ → String) (sens : ℕ → ℚ) (i : ℕ) :
    List ℚ × List String :=
  applySensitivity (sens i) (units i) (sensUnits i)
    (col (rawOf sampleRate reader t) i)

/-- The synthetic time entry `acquire_processed` writes last into the labeled
dict: `linspace(0, t, sample_count)` with unit `"s"`. -/
def timeEntry (t sampleRate : ℚ) : Entry :=
  ⟨linspace 0 t (pyInt (t * sampleRate)).toNat, .str "s"⟩

/-- Per-channel metadata hypothesis: position `i` of the channel-config map
carries name `names i`, output unit `units i`, sensitivity `sens i` and
sensitivity-unit string `sensUnits i`. -/
def ChannelMeta (cfg : List (ℕ × Settings)) (names units : ℕ → String)
    (sens : ℕ → ℚ) (sensUnits : ℕ → String) : Prop :=
  ∀ i (hi : i < cfg.length),
    cfg[i].2.lookup "Name" = some (.str (names i)) ∧
    cfg[i].2.lookup "Unit" = some (.str (units i)) ∧
    cfg[i].2.lookup "Sensitivity" = some (.num (sens i)) ∧
    cfg[i].2.lookup "Sensitivity Unit" = some (.str (sensUnits i))

lemma acquire_processed_dict_eq (sampleRate : ℚ)
    (reader : ℕ → ℚ → List (List ℚ)) (cfg : List (ℕ × Settings)) (t : ℚ)
    (names units : ℕ → String) (sens : ℕ → ℚ) (sensUnits : ℕ → String)
    (hmeta : ChannelMeta cfg names units sens sensUnits) :
    acquire_processed sampleRate reader cfg t true = .ok
      (.dict (pyDictInsert
        ((cfg.enum.map fun p => ((.str (names p.1) : PValue),
          (⟨(calSeries sampleRate reader t units sensUnits sens p.1).1,
            .str (units p.1)⟩ : Entry))).foldl
          (fun d kv => pyDictInsert d kv.1 kv.2) [])
        (.str "time") (timeEntry t sampleRate)),
      (cfg.enum.map fun p =>
        (calSeries sampleRate reader t units sensUnits sens p.1).2).flatten)
      := by
  have hproc : processChannels (rawOf sampleRate reader t) cfg.enum =
      .ok (cfg.enum.map fun p =>
          (calSeries sampleRate reader t units sensUnits sens p.1).1,
        (cfg.enum.map fun p =>
          (calSeries sampleRate reader t units sensUnits sens p.1).2).flatten) := by
    apply processChannels_eq
    intro p hp
    obtain ⟨hb, h2⟩ := mem_enum_elim cfg p hp
    have hpg : p.2 = cfg[p.1] := by
      rw [List.getElem?_eq_getElem hb] at h2
      exact (Option.some.inj h2).symm
    obtain ⟨hn, hu, hsv, hsu⟩ := hmeta p.1 hb
    simp [applySensitivityCh, getNum, getVal, getStr, hpg, hn, hu, hsv,
      hsu, calSeries]
  have hpd : ∀ p ∈ cfg.enum,
      ((cfg.enum.map fun q =>
        (calSeries sampleRate reader t units sensUnits sens q.1).1).getD
          p.1 []) =
        (calSeries sampleRate reader t units sensUnits sens p.1).1 := by
    intro p hp
    obtain ⟨hb, -⟩ := mem_enum_elim cfg p hp
    have hb' : p.1 < cfg.enum.length := by
      simpa [List.enum_eq_enumFrom] using hb
    rw [List.getD_eq_getElem?_getD, List.getElem?_map,
      List.getElem?_eq_getElem hb']
    have : cfg.enum[p.1] = (0 + p.1, cfg[p.1]) :=
      List.getElem_enumFrom cfg 0 p.1 hb'
    simp [this]
  have hdict : buildDataDict
      (cfg.enum.map fun p =>
        (calSeries sampleRate reader t units sensUnits sens p.1).1)
      cfg.enum [] = .ok
      ((cfg.enum.map fun p => ((.str (names p.1) : PValue),
        (⟨(calSeries sampleRate reader t units sensUnits sens p.1).1,
          .str (units p.1)⟩ : Entry))).foldl
        (fun d kv => pyDictInsert d kv.1 kv.2) []) := by
    rw [buildDataDict_eq _ (fun i => .str (names i))
      (fun i => .str (units i)) cfg.enum []]
    · congr 1
      apply congrArg (fun l => List.foldl _ _ l)
      apply List.map_congr_left
      intro p hp
      rw [hpd p hp]
    · intro p hp
      obtain ⟨hb, h2⟩ := mem_enum_elim cfg p hp
      have hpg : p.2 = cfg[p.1] := by
        rw [List.getElem?_eq_getElem hb] at h2
        exact (Option.some.inj h2).symm
      obtain ⟨hn, hu, -, -⟩ := hmeta p.1 hb
      rw [hpg]
      exact ⟨hn, hu⟩
  simp only [acquire_processed, rawOf] at hproc ⊢
  rw [hproc]
  simp only [ok_bind, if_pos rfl, ite_true]
  rw [hdict]
  simp [timeEntry]

/-- C5: `acquire_processed` computes
`sample_count = floor(acquisition_time * sample_rate)` and, with the
labeled-dict flag set, returns a dict with one entry per configured channel —
keyed by the channel's configured name, holding the channel's calibrated
series and output unit — plus a `time` entry holding
`linspace(0, acquisition_time, sample_count)` with unit `"s"`; the dict shape
(`AcqOut.dict`) and the array shape (`AcqOut.arr`) are mutually exclusive
constructors of the result type. -/
theorem claimC5_labeled_dict_output (sampleRate : ℚ)
    (reader : ℕ → ℚ → List (List ℚ)) (cfg : List (ℕ × Settings)) (t : ℚ)
    (names units : ℕ → String) (sens : ℕ → ℚ) (sensUnits : ℕ → String)
    (h0 : 0 ≤ t * sampleRate)
    (hmeta : ChannelMeta cfg names units sens sensUnits)
    (hinj : ∀ i j, i < cfg.length → j < cfg.length →
      names i = names j → i = j)
    (hnt : ∀ i, i < cfg.length → names i ≠ "time") :
    pyInt (t * sampleRate) = ⌊t * sampleRate⌋ ∧
    ∃ d logs,
      acquire_processed sampleRate reader cfg t true =
        .ok (.dict d, logs) ∧
      d.length = cfg.length + 1 ∧
      d.lookup (.str "time") = some (timeEntry t sampleRate) ∧
      ∀ i, i < cfg.length → d.lookup (.str (names i)) = some
        ⟨(calSeries sampleRate reader t units sensUnits sens i).1,
          .str (units i)⟩ := by
  have hpipe := acquire_processed_dict_eq sampleRate reader cfg t names
    units sens sensUnits hmeta
  set E := cfg.enum.map fun p => ((.str (names p.1) : PValue),
    (⟨(calSeries sampleRate reader t units sensUnits sens p.1).1,
      .str (units p.1)⟩ : Entry)) with hE
  have hkeysne : ∀ p ∈ cfg.enum,
      (.str (names p.1) : PValue) ≠ .str "time" := by
    intro p hp
    have hb := (mem_enum_elim cfg p hp).1
    simpa using hnt p.1 hb
  have hEnone : E.lookup (.str "time") = none :=
    lookup_map_pairs_none
      (fun p : ℕ × (ℕ × Settings) => (.str (names p.1) : PValue))
      (fun p => ⟨(calSeries sampleRate reader t units sensUnits sens
        p.1).1, .str (units p.1)⟩)
      cfg.enum (.str "time") hkeysne
  have henumnd : cfg.enum.Nodup := by
    apply List.Nodup.of_map Prod.fst
    rw [show cfg.enum.map Prod.fst = List.range' 0 cfg.length from
      List.enumFrom_map_fst 0 cfg]
    exact List.nodup_range' 0 cfg.length
  have hnodupE : (E.map Prod.fst).Nodup := by
    have hmm : E.map Prod.fst =
        cfg.enum.map fun p => (.str (names p.1) : PValue) := by
      rw [hE, List.map_map]
      rfl
    rw [hmm]
    apply List.Nodup.map_on ?_ henumnd
    intro x hx y hy hxy
    have hbx := (mem_enum_elim cfg x hx).1
    have hby := (mem_enum_elim cfg y hy).1
    have hnn : names x.1 = names y.1 := by simpa using hxy
    have h1 : x.1 = y.1 := hinj _ _ hbx hby hnn
    have hx2 := (mem_enum_elim cfg x hx).2
    have hy2 := (mem_enum_elim cfg y hy).2
    rw [h1] at hx2
    rw [hy2] at hx2
    exact Prod.ext h1 (Option.some.inj hx2).symm
  have hfold : E.foldl (fun d kv => pyDictInsert d kv.1 kv.2) [] = E := by
    rw [foldl_insert_fresh_append E [] (by intro kv _; rfl) hnodupE]
    simp
  have hfinal : pyDictInsert E (.str "time") (timeEntry t sampleRate) =
      E ++ [(.str "time", timeEntry t sampleRate)] := by
    unfold pyDictInsert
    rw [if_neg]
    simp [hEnone]
  rw [hfold, hfinal] at hpipe
  refine ⟨by unfold pyInt; rw [if_neg (not_lt.mpr h0)], _, _, hpipe,
    ?_, ?_, ?_⟩
  · simp [hE, List.enum_eq_enumFrom]
  · rw [lookup_append, hEnone]
    simp [List.lookup]
  · intro i hi
    rw [lookup_append]
    have hcong : ∀ y ∈ cfg.enum,
        (.str (names y.1) : PValue) =
          (.str (names ((i, cfg[i]) : ℕ × (ℕ × Settings)).1) : PValue) →
        (⟨(calSeries sampleRate reader t units sensUnits sens y.1).1,
          .str (units y.1)⟩ : Entry) =
          ⟨(calSeries sampleRate reader t units sensUnits sens
            ((i, cfg[i]) : ℕ × (ℕ × Settings)).1).1,
            .str (units ((i, cfg[i]) : ℕ × (ℕ × Settings)).1)⟩ := by
      intro y hy hxy
      have hby := (mem_enum_elim cfg y hy).1
      have hnn : names y.1 = names i := by simpa using hxy
      have h1 : y.1 = i := hinj _ _ hby hi hnn
      rw [h1]
    have hlk := lookup_map_pairs
      (fun p : ℕ × (ℕ × Settings) => (.str (names p.1) : PValue))
      (fun p => ⟨(calSeries sampleRate reader t units sensUnits sens
        p.1).1, .str (units p.1)⟩)
      cfg.enum ((i, cfg[i]) : ℕ × (ℕ × Settings))
      (mem_enum_intro cfg i hi) hcong
    rw [← hE] at hlk
    rw [hlk]

/-- C10: the synthetic `time` entry is written after all channel entries, so
when some configured channel is named `time`, that channel's entry is
overwritten by the synthetic time vector (every dict value under key `time`
is the synthetic entry) and the dict has fewer entries than the number of
configured channels plus one. -/
theorem claimC10_time_name_collision (sampleRate : ℚ)
    (reader : ℕ → ℚ → List (List ℚ)) (cfg : List (ℕ × Settings)) (t : ℚ)
    (names units : ℕ → String) (sens : ℕ → ℚ) (sensUnits : ℕ → String)
    (hmeta : ChannelMeta cfg names units sens sensUnits)
    (htime : ∃ i, i < cfg.length ∧ names i = "time") :
    ∃ d logs,
      acquire_processed sampleRate reader cfg t true =
        .ok (.dict d, logs) ∧
      d.lookup (.str "time") = some (timeEntry t sampleRate) ∧
      d.length < cfg.length + 1 ∧
      ∀ kv ∈ d, kv.1 = .str "time" → kv.2 = timeEntry t sampleRate := by
  have hpipe := acquire_processed_dict_eq sampleRate reader cfg t names
    units sens sensUnits hmeta
  set E := cfg.enum.map fun p => ((.str (names p.1) : PValue),
    (⟨(calSeries sampleRate reader t units sensUnits sens p.1).1,
      .str (units p.1)⟩ : Entry)) with hE
  set DF := List.foldl (fun d kv => pyDictInsert d kv.1 kv.2) [] E
    with hDF
  obtain ⟨i0, hi0, hname0⟩ := htime
  have hkey : ∃ kv ∈ E, kv.1 = (.str "time" : PValue) := by
    refine ⟨(.str (names i0),
      ⟨(calSeries sampleRate reader t units sensUnits sens i0).1,
        .str (units i0)⟩), ?_, by rw [hname0]⟩
    rw [hE]
    exact List.mem_map_of_mem _ (mem_enum_intro cfg i0 hi0)
  have hpresent : (DF.lookup (.str "time")).isSome := by
    rw [hDF]
    exact foldl_insert_key_present E [] (.str "time") (Or.inr hkey)
  have hElen : E.length = cfg.length := by
    simp [hE, List.enum_eq_enumFrom]
  have hlen : DF.length ≤ cfg.length := by
    have h1 := foldl_insert_length_le E []
    rw [hDF]
    simpa [hElen] using h1
  refine ⟨_, _, hpipe, pyDictInsert_lookup_self DF _ _, ?_, ?_⟩
  · rw [pyDictInsert_length, if_pos hpresent]
    omega
  · intro kv hkv hk1
    unfold pyDictInsert at hkv
    rw [if_pos hpresent] at hkv
    obtain ⟨kv', hkv', hmap⟩ := List.mem_map.mp hkv
    by_cases hc : kv'.1 = (.str "time" : PValue)
    · rw [if_pos hc] at hmap
      rw [← hmap]
    · rw [if_neg hc] at hmap
      rw [← hmap] at hk1
      exact absurd hk1 hc

/-- Witness configuration for C5: one IEPE accelerometer channel. -/
def demoCfgAcc : List (ℕ × Settings) :=
  [(0, [("Name", .str "acc_X"), ("Measurement", .str "IEPE"),
    ("Sensitivity", .num 100), ("Sensitivity Unit", .str "mV/g"),
    ("Unit", .str "g")])]

/-- Witness for C5 on the one-channel accelerometer configuration at 2 s and
1000 Hz. -/
theorem claimC5_witness :
    pyInt ((2 : ℚ) * 1000) = ⌊(2 : ℚ) * 1000⌋ ∧
    ∃ d logs,
      acquire_processed 1000 (fun _ _ => [[1, 2]]) demoCfgAcc 2 true =
        .ok (.dict d, logs) ∧
      d.length = 2 ∧
      d.lookup (.str "time") = some (timeEntry 2 1000) ∧
      ∀ i, i < 1 → d.lookup (.str "acc_X") = some
        ⟨(calSeries 1000 (fun _ _ => [[1, 2]]) 2 (fun _ => "g")
          (fun _ => "mV/g") (fun _ => 100) i).1, .str "g"⟩ :=
  claimC5_labeled_dict_output 1000 (fun _ _ => [[1, 2]]) demoCfgAcc 2
    (fun _ => "acc_X") (fun _ => "g") (fun _ => 100) (fun _ => "mV/g")
    (by norm_num)
    (by
      intro i hi
      have h0 : i = 0 := by
        simpa [demoCfgAcc] using hi
      subst h0
      exact ⟨rfl, rfl, rfl, rfl⟩)
    (fun i j hi hj _ => by
      simp [demoCfgAcc] at hi hj
      omega)
    (by
      intro i _
      show "acc_X" ≠ "time"
      decide)

/-- Witness configuration for C10: a single channel named `time`. -/
def demoCfgTime : List (ℕ × Settings) :=
  [(0, [("Name", .str "time"), ("Sensitivity", .num 1),
    ("Sensitivity Unit", .str "V/V"), ("Unit", .str "V")])]

/-- Witness for C10: the channel named `time` is overwritten by the synthetic
time vector and the dict stays below two entries. -/
theorem claimC10_witness :
    ∃ d logs,
      acquire_processed 1000 (fun _ _ => [[1, 2]]) demoCfgTime 2 true =
        .ok (.dict d, logs) ∧
      d.lookup (.str "time") = some (timeEntry 2 1000) ∧
      d.length < 2 ∧
      ∀ kv ∈ d, kv.1 = .str "time" → kv.2 = timeEntry 2 1000 :=
  claimC10_time_name_collision 1000 (fun _ _ => [[1, 2]]) demoCfgTime 2
    (fun _ => "time") (fun _ => "V") (fun _ => 1) (fun _ => "V/V")
    (by
      intro i hi
      have h0 : i = 0 := by
        simpa [demoCfgTime] using hi
      subst h0
      exact ⟨rfl, rfl, rfl, rfl⟩)
    ⟨0, by simp [demoCfgTime], rfl⟩

end SiriusX
